import Mathlib

/-!
Verification development for the ISLa constraint solver (`src/isla/solver.py`).

The solver's data model (derivation trees, formulas) lives in the module
`isla.isla`, which is not part of the sources under verification; those
parts are modelled from the specification (spec.md §3, §4.A, §4.B) and are
marked as such.  All solver-level operations are translated from
`src/isla/solver.py`.
-/

namespace Isla

/-- Modelled from the spec: a symbol is a nonterminal iff it is an
angle-bracketed name (glossary; `is_nonterminal` comes from the external
fuzzingbook library). -/
def is_nonterminal (s : String) : Bool :=
  decide (s.data.head? = some '<') && decide (s.data.getLast? = some '>')

mutual

/-- Modelled from the spec (§3, entity A; `isla.isla.DerivationTree` is not
under `src/`): a derivation-tree node has a symbol, an ordered sequence of
children or a distinguished "open" marker, and a stable identifier.
`openNode` is a node whose children marker is present (Python `children is
None`); `inner` is a node with an explicit children sequence (terminals
have an empty sequence).  The children sequence is a bespoke list type so
that all tree operations are structurally recursive and computable. -/
inductive DTree where
  | openNode (value : String) (id : Nat)
  | inner (value : String) (children : DTreeList) (id : Nat)

inductive DTreeList where
  | nil
  | cons (head : DTree) (tail : DTreeList)

end

mutual

def decEqDTree : (a b : DTree) → Decidable (a = b)
  | .openNode v i, .openNode w j =>
    match String.decEq v w, Nat.decEq i j with
    | isTrue hv, isTrue hi => isTrue (by rw [hv, hi])
    | isFalse hv, _ => isFalse (by intro h; injection h; exact hv (by assumption))
    | _, isFalse hi => isFalse (by intro h; injection h; exact hi (by assumption))
  | .openNode _ _, .inner _ _ _ => isFalse (by intro h; injection h)
  | .inner _ _ _, .openNode _ _ => isFalse (by intro h; injection h)
  | .inner v cs i, .inner w ds j =>
    match String.decEq v w, decEqDTreeList cs ds, Nat.decEq i j with
    | isTrue hv, isTrue hc, isTrue hi => isTrue (by rw [hv, hc, hi])
    | isFalse hv, _, _ => isFalse (by intro h; injection h; exact hv (by assumption))
    | _, isFalse hc, _ => isFalse (by intro h; injection h; exact hc (by assumption))
    | _, _, isFalse hi => isFalse (by intro h; injection h; exact hi (by assumption))

def decEqDTreeList : (a b : DTreeList) → Decidable (a = b)
  | .nil, .nil => isTrue rfl
  | .nil, .cons _ _ => isFalse (by intro h; injection h)
  | .cons _ _, .nil => isFalse (by intro h; injection h)
  | .cons x xs, .cons y ys =>
    match decEqDTree x y, decEqDTreeList xs ys with
    | isTrue hx, isTrue hxs => isTrue (by rw [hx, hxs])
    | isFalse hx, _ => isFalse (by intro h; injection h; exact hx (by assumption))
    | _, isFalse hxs => isFalse (by intro h; injection h; exact hxs (by assumption))

end

instance : DecidableEq DTree := decEqDTree

instance : DecidableEq DTreeList := decEqDTreeList

def DTreeList.ofList : List DTree → DTreeList
  | [] => .nil
  | t :: ts => .cons t (DTreeList.ofList ts)

def DTreeList.toList : DTreeList → List DTree
  | .nil => []
  | .cons t ts => t :: ts.toList

mutual

/-- Modelled from the spec (§3): the structural hash of a tree "depends only
on the shape and symbols, not on identities".  We model the hash by the
identity-stripped skeleton of the tree: two trees have equal structural
hash iff their skeletons are equal. -/
inductive Skel where
  | openNode (value : String)
  | inner (value : String) (children : SkelList)

inductive SkelList where
  | nil
  | cons (head : Skel) (tail : SkelList)

end

mutual

def decEqSkel : (a b : Skel) → Decidable (a = b)
  | .openNode v, .openNode w =>
    match String.decEq v w with
    | isTrue hv => isTrue (by rw [hv])
    | isFalse hv => isFalse (by intro h; injection h; exact hv (by assumption))
  | .openNode _, .inner _ _ => isFalse (by intro h; injection h)
  | .inner _ _, .openNode _ => isFalse (by intro h; injection h)
  | .inner v cs, .inner w ds =>
    match String.decEq v w, decEqSkelList cs ds with
    | isTrue hv, isTrue hc => isTrue (by rw [hv, hc])
    | isFalse hv, _ => isFalse (by intro h; injection h; exact hv (by assumption))
    | _, isFalse hc => isFalse (by intro h; injection h; exact hc (by assumption))

def decEqSkelList : (a b : SkelList) → Decidable (a = b)
  | .nil, .nil => isTrue rfl
  | .nil, .cons _ _ => isFalse (by intro h; injection h)
  | .cons _ _, .nil => isFalse (by intro h; injection h)
  | .cons x xs, .cons y ys =>
    match decEqSkel x y, decEqSkelList xs ys with
    | isTrue hx, isTrue hxs => isTrue (by rw [hx, hxs])
    | isFalse hx, _ => isFalse (by intro h; injection h; exact hx (by assumption))
    | _, isFalse hxs => isFalse (by intro h; injection h; exact hxs (by assumption))

end

instance : DecidableEq Skel := decEqSkel

instance : DecidableEq SkelList := decEqSkelList

mutual

/-- Modelled from the spec (§4.A `structural_hash()`): erase node ids. -/
def DTree.structural_hash : DTree → Skel
  | .openNode v _ => .openNode v
  | .inner v cs _ => .inner v cs.structural_hash_list

def DTreeList.structural_hash_list : DTreeList → SkelList
  | .nil => .nil
  | .cons t ts => .cons t.structural_hash ts.structural_hash_list

end

mutual

/-- Modelled from the spec (§3): "a node is open iff its children marker is
present and its value is nonterminal"; a tree is open iff some node is
open. -/
def DTree.is_open : DTree → Bool
  | .openNode v _ => is_nonterminal v
  | .inner _ cs _ => cs.any_open

def DTreeList.any_open : DTreeList → Bool
  | .nil => false
  | .cons t ts => t.is_open || ts.any_open

end

/-- Modelled from the spec (§3): "a tree is complete iff no node is open".
(The grammar-consistency half of completeness is enforced constructively by
the operations that build children sequences.) -/
def DTree.is_complete (t : DTree) : Bool := !t.is_open

/-- Modelled from the spec (§4.A): paths are tuples of child indices. -/
abbrev TPath := List Nat

mutual

/-- Modelled from the spec (§4.A `replace_path(path, new)`): replacing the
sub-tree at a path rebuilds only the spine; nodes outside the path keep
their identities. -/
def DTree.replace_path : DTree → TPath → DTree → DTree
  | _, [], new => new
  | .openNode v i, _ :: _, _ => .openNode v i
  | .inner v cs i, j :: p, new => .inner v (cs.replace_at j p new) i

def DTreeList.replace_at : DTreeList → Nat → TPath → DTree → DTreeList
  | .nil, _, _, _ => .nil
  | .cons t ts, 0, p, new => .cons (t.replace_path p new) ts
  | .cons t ts, j + 1, p, new => .cons t (ts.replace_at j p new)

end

mutual

/-- Modelled from the spec (§4.A `open_leaves()`): the sequence of
`(path, node)` pairs for open nodes. -/
def DTree.open_leaves : DTree → List (TPath × DTree)
  | .openNode v i =>
      if is_nonterminal v then [([], .openNode v i)] else []
  | .inner _ cs _ => cs.open_leaves_from 0

def DTreeList.open_leaves_from : DTreeList → Nat → List (TPath × DTree)
  | .nil, _ => []
  | .cons t ts, i =>
      (t.open_leaves.map (fun pl => (i :: pl.1, pl.2)))
        ++ ts.open_leaves_from (i + 1)

end

mutual

/-- Modelled from the spec (§6): a tree renders to a string by
concatenating its leaves in order (open nodes render as their nonterminal
symbol). -/
def DTree.render : DTree → String
  | .openNode v _ => v
  | .inner v cs _ =>
      match cs with
      | .nil => v
      | .cons t ts => t.render ++ DTreeList.render_list ts

def DTreeList.render_list : DTreeList → String
  | .nil => ""
  | .cons t ts => t.render ++ ts.render_list

end

/-! ## Formula AST

Modelled from the spec (§3, entity B; §4.B): the formula algebra lives in
`isla.isla`, which is not under `src/`. -/

/-- Modelled from the spec (§3): a variable is either a constant or a bound
variable, each with a nonterminal type or a numeric sort. -/
inductive Var where
  | constant (name : String) (ntype : String)
  | boundVar (name : String) (ntype : String)
deriving DecidableEq

/-- Modelled from the spec (§3): `Constant.is_numeric` holds for the numeric
sort. -/
def Var.is_numeric : Var → Bool
  | .constant _ nt => nt = "NUM"
  | .boundVar _ nt => nt = "NUM"

def Var.isConstant : Var → Bool
  | .constant _ _ => true
  | .boundVar _ _ => false

def Var.name : Var → String
  | .constant n _ => n
  | .boundVar n _ => n

def Var.ntype : Var → String
  | .constant _ nt => nt
  | .boundVar _ nt => nt

/-- A predicate argument is a variable or a concrete tree (spec §3). -/
inductive TreeOrVar where
  | var (v : Var)
  | tree (t : DTree)
deriving DecidableEq

/-- Modelled from the spec (§3): the quantifier-free SMT payload of an SMT
atom.  `boolVal b` is `z3.BoolVal(b)` (so `sc.true()` is `boolVal true`);
other SMT formulas are opaque atoms over a list of variables. -/
inductive SMTExpr where
  | boolVal (b : Bool)
  | atom (n : Nat) (vars : List Var)
deriving DecidableEq

/-- Modelled from the spec (§3, entity B): tagged formula variants.  An SMT
atom carries the mapping `substitutions : instantiated variable → sub-tree`;
universal quantifiers carry the set `already_matched` of node ids. -/
inductive Formula where
  | smt (e : SMTExpr) (substitutions : List (Var × DTree))
  | structPred (name : String) (args : List TreeOrVar)
  | semPred (name : String) (args : List TreeOrVar)
  | forallF (boundVariable : Var) (bindVars : List Var) (inVariable : TreeOrVar)
      (inner : Formula) (alreadyMatched : List Nat)
  | existsF (boundVariable : Var) (bindVars : List Var) (inVariable : TreeOrVar)
      (inner : Formula)
  | introNum (boundVariable : Var) (inner : Formula)
  | conj (l r : Formula)
  | disj (l r : Formula)
  | neg (f : Formula)
deriving DecidableEq

/-- `sc.true()` is `SMTFormula(z3.BoolVal(True))` with empty substitutions. -/
def trueF : Formula := .smt (.boolVal true) []

/-- `sc.false()` is `SMTFormula(z3.BoolVal(False))` with empty substitutions. -/
def falseF : Formula := .smt (.boolVal false) []

def Formula.isDisj : Formula → Bool
  | .disj _ _ => true
  | _ => false

def Formula.isForall : Formula → Bool
  | .forallF _ _ _ _ _ => true
  | _ => false

/-- Modelled from the spec (§4.B `split_conjunction()`): split a top-level
conjunction into its conjuncts. -/
def split_conjunction : Formula → List Formula
  | .conj l r => split_conjunction l ++ split_conjunction r
  | f => [f]

/-- Modelled from the spec (§4.B `split_disjunction()`): split a top-level
disjunction into its disjuncts. -/
def split_disjunction : Formula → List Formula
  | .disj l r => split_disjunction l ++ split_disjunction r
  | f => [f]

/-- `isla.get_conjuncts`: the conjuncts of every disjunct of a formula. -/
def get_conjuncts (f : Formula) : List Formula :=
  (split_disjunction f).map split_conjunction |>.flatten

/-- Modelled from the spec (§4.B `to_nnf()`): push negations inward.  The
second argument is the polarity. -/
def nnfAux : Formula → Bool → Formula
  | .conj l r, pol =>
      if pol then .conj (nnfAux l true) (nnfAux r true)
      else .disj (nnfAux l false) (nnfAux r false)
  | .disj l r, pol =>
      if pol then .disj (nnfAux l true) (nnfAux r true)
      else .conj (nnfAux l false) (nnfAux r false)
  | .neg g, pol => nnfAux g (!pol)
  | .forallF bv bvs it inner am, pol =>
      if pol then .forallF bv bvs it (nnfAux inner true) am
      else .existsF bv bvs it (nnfAux inner false)
  | .existsF bv bvs it inner, pol =>
      if pol then .existsF bv bvs it (nnfAux inner true)
      else .forallF bv bvs it (nnfAux inner false) []
  | .introNum bv inner, pol => .introNum bv (nnfAux inner pol)
  | .smt (.boolVal b) substs, pol =>
      if pol then .smt (.boolVal b) substs else .smt (.boolVal !b) substs
  | f, pol => if pol then f else .neg f

/-- Modelled from the spec (§4.B `to_nnf()`). -/
def convert_to_nnf (f : Formula) : Formula := nnfAux f true

/-- Distribute a conjunction with a right disjunction. -/
def distribR (f : Formula) : Formula → Formula
  | .disj a b => .disj (distribR f a) (distribR f b)
  | g => .conj f g

/-- Distribute a conjunction over disjunctions on both sides. -/
def distrib : Formula → Formula → Formula
  | .disj a b, g => .disj (distrib a g) (distrib b g)
  | f, g => distribR f g

/-- Modelled from the spec (§4.B `to_dnf()`): lift disjunctions to the top. -/
def convert_to_dnf : Formula → Formula
  | .disj l r => .disj (convert_to_dnf l) (convert_to_dnf r)
  | .conj l r => distrib (convert_to_dnf l) (convert_to_dnf r)
  | f => f

/-- Modelled from the spec (§4.B `replace_subformula(old, new)`,
`isla.replace_formula`): replace every occurrence of `old` by `new`. -/
def replace_formula (f old new : Formula) : Formula :=
  if f = old then new
  else match f with
    | .conj l r => .conj (replace_formula l old new) (replace_formula r old new)
    | .disj l r => .disj (replace_formula l old new) (replace_formula r old new)
    | .neg g => .neg (replace_formula g old new)
    | .forallF bv bvs it inner am => .forallF bv bvs it (replace_formula inner old new) am
    | .existsF bv bvs it inner => .existsF bv bvs it (replace_formula inner old new)
    | .introNum bv inner => .introNum bv (replace_formula inner old new)
    | g => g

/-- Modelled from the spec (`VariablesCollector.collect`): all variables
occurring in a formula, including bound variables and quantifier domains. -/
def collectVars : Formula → List Var
  | .smt e substs =>
      (match e with | .boolVal _ => [] | .atom _ vs => vs) ++ substs.map Prod.fst
  | .structPred _ args => args.filterMap (fun a => match a with | .var v => some v | _ => none)
  | .semPred _ args => args.filterMap (fun a => match a with | .var v => some v | _ => none)
  | .forallF bv bvs it inner _ =>
      bv :: bvs ++ (match it with | .var v => [v] | _ => []) ++ collectVars inner
  | .existsF bv bvs it inner =>
      bv :: bvs ++ (match it with | .var v => [v] | _ => []) ++ collectVars inner
  | .introNum bv inner => bv :: collectVars inner
  | .conj l r => collectVars l ++ collectVars r
  | .disj l r => collectVars l ++ collectVars r
  | .neg g => collectVars g

/-- Modelled from the spec (§4.B `substitute_expressions(σ)` restricted to a
single constant, as used in `ISLaSolver.__init__`): replace every occurrence
of the constant `c` by the tree `t`.  In an SMT atom the formula itself is
kept and the pair `(c, t)` is recorded in the substitutions mapping. -/
def substConstExpr (c : Var) (t : DTree) : Formula → Formula
  | .smt e substs =>
      let vs := match e with | .boolVal _ => [] | .atom _ vs => vs
      .smt e (substs ++ (if vs.contains c then [(c, t)] else []))
  | .structPred n args =>
      .structPred n (args.map (fun a => if a = .var c then .tree t else a))
  | .semPred n args =>
      .semPred n (args.map (fun a => if a = .var c then .tree t else a))
  | .forallF bv bvs it inner am =>
      .forallF bv bvs (if it = .var c then .tree t else it) (substConstExpr c t inner) am
  | .existsF bv bvs it inner =>
      .existsF bv bvs (if it = .var c then .tree t else it) (substConstExpr c t inner)
  | .introNum bv inner => .introNum bv (substConstExpr c t inner)
  | .conj l r => .conj (substConstExpr c t l) (substConstExpr c t r)
  | .disj l r => .disj (substConstExpr c t l) (substConstExpr c t r)
  | .neg g => .neg (substConstExpr c t g)

/-- Rename one variable: `old` becomes `new`, others are unchanged. -/
def renameVar (old new v : Var) : Var := if v = old then new else v

/-- `renameVar` lifted to predicate arguments. -/
def renameTV (old new : Var) (a : TreeOrVar) : TreeOrVar :=
  if a = .var old then .var new else a

/-- Rename every occurrence of the variable `old` to `new` (used by the
modelled alpha-renaming below). -/
def renameVarIn (old new : Var) : Formula → Formula
  | .smt e substs =>
      let e' := match e with
        | .boolVal b => SMTExpr.boolVal b
        | .atom n vs => SMTExpr.atom n (vs.map (renameVar old new))
      .smt e' (substs.map (fun p => (renameVar old new p.1, p.2)))
  | .structPred n args => .structPred n (args.map (renameTV old new))
  | .semPred n args => .semPred n (args.map (renameTV old new))
  | .forallF bv bvs it inner am =>
      .forallF (renameVar old new bv) (bvs.map (renameVar old new))
        (renameTV old new it) (renameVarIn old new inner) am
  | .existsF bv bvs it inner =>
      .existsF (renameVar old new bv) (bvs.map (renameVar old new))
        (renameTV old new it) (renameVarIn old new inner)
  | .introNum bv inner =>
      .introNum (renameVar old new bv) (renameVarIn old new inner)
  | .conj l r => .conj (renameVarIn old new l) (renameVarIn old new r)
  | .disj l r => .disj (renameVarIn old new l) (renameVarIn old new r)
  | .neg g => .neg (renameVarIn old new g)

/-- Modelled from the spec (§4.B `ensure_unique_bound_variables()`,
alpha-rename; `isla.isla` is not under `src/`): give every quantifier-bound
variable a fresh name.  Constants are never renamed. -/
def renameBoundAux : Formula → Nat → Formula × Nat
  | .forallF bv bvs it inner am, n =>
      (match bv with
        | .boundVar nm nt =>
          let bv' := Var.boundVar (nm ++ "_" ++ toString n) nt
          let r := renameBoundAux inner (n + 1)
          (.forallF bv' bvs it (renameVarIn (.boundVar nm nt) bv' r.1) am, r.2)
        | .constant nm nt =>
          let r := renameBoundAux inner n
          (.forallF (.constant nm nt) bvs it r.1 am, r.2))
  | .existsF bv bvs it inner, n =>
      (match bv with
        | .boundVar nm nt =>
          let bv' := Var.boundVar (nm ++ "_" ++ toString n) nt
          let r := renameBoundAux inner (n + 1)
          (.existsF bv' bvs it (renameVarIn (.boundVar nm nt) bv' r.1), r.2)
        | .constant nm nt =>
          let r := renameBoundAux inner n
          (.existsF (.constant nm nt) bvs it r.1, r.2))
  | .introNum bv inner, n =>
      let r := renameBoundAux inner n
      (.introNum bv r.1, r.2)
  | .conj l r, n =>
      let rl := renameBoundAux l n
      let rr := renameBoundAux r rl.2
      (.conj rl.1 rr.1, rr.2)
  | .disj l r, n =>
      let rl := renameBoundAux l n
      let rr := renameBoundAux r rl.2
      (.disj rl.1 rr.1, rr.2)
  | .neg g, n =>
      let r := renameBoundAux g n
      (.neg r.1, r.2)
  | f, n => (f, n)

/-- `ensure_unique_bound_variables` as used in `ISLaSolver.__init__`. -/
def ensure_unique_bound_variables (f : Formula) : Formula :=
  (renameBoundAux f 0).1

/-! ## Solution states (`src/isla/solver.py`, class `SolutionState`) -/

/-- `SolutionState.__init__` (solver.py line 31): a pair of residual
constraint and derivation tree, plus a derivation level. -/
structure SolutionState where
  constraint : Formula
  tree : DTree
  level : Nat := 0
deriving DecidableEq

/-- `SolutionState.complete` (solver.py lines 45-61): the tree is complete
and the constraint equals `sc.true()`. -/
def SolutionState.complete (s : SolutionState) : Bool :=
  s.tree.is_complete && s.constraint = trueF

/-! ## Solver pipeline (`src/isla/solver.py`, class `ISLaSolver`) -/

/-- `isla.FilterVisitor(... StructuralPredicateFormula).collect` restricted
to atoms all of whose arguments are concrete trees (solver.py lines
406-412). -/
def collectConcreteStructPreds : Formula → List Formula
  | .structPred n args =>
      if args.all (fun a => match a with | .tree _ => true | .var _ => false)
      then [.structPred n args] else []
  | .conj l r => collectConcreteStructPreds l ++ collectConcreteStructPreds r
  | .disj l r => collectConcreteStructPreds l ++ collectConcreteStructPreds r
  | .neg g => collectConcreteStructPreds g
  | .forallF _ _ _ inner _ => collectConcreteStructPreds inner
  | .existsF _ _ _ inner => collectConcreteStructPreds inner
  | .introNum _ inner => collectConcreteStructPreds inner
  | _ => []

/-- `ISLaSolver.instantiate_structural_predicates` (solver.py lines 406-420):
every structural predicate atom whose arguments are all concrete trees is
replaced by the boolean value of its evaluation.  The evaluation function
itself (`predicate_formula.evaluate(state.tree)`) dispatches to predicate
callbacks outside `src/` and is therefore a parameter. -/
def instantiate_structural_predicates
    (evalPred : String → List TreeOrVar → DTree → Bool) (state : SolutionState) :
    SolutionState :=
  let preds := collectConcreteStructPreds state.constraint
  ⟨preds.foldl (fun acc p =>
      match p with
      | .structPred n args =>
          replace_formula acc (.structPred n args) (.smt (.boolVal (evalPred n args state.tree)) [])
      | _ => acc) state.constraint,
    state.tree, 0⟩

/-- `ISLaSolver.establish_invariant` (solver.py lines 1112-1116): convert
the constraint to NNF, then DNF, and emit one state per disjunct. -/
def establish_invariant (state : SolutionState) : List SolutionState :=
  let formula := convert_to_dnf (convert_to_nnf state.constraint)
  (split_disjunction formula).map (fun disjunct => ⟨disjunct, state.tree, 0⟩)

/-- `ISLaSolver.remove_nonmatching_universal_quantifiers` (solver.py lines
1209-1219): replace by `true` every universal conjunct whose domain is
complete but has no matches.  The test (`in_variable.is_complete() and not
matches_for_quantified_formula(...)`, which needs the quantifier matcher
from `isla.isla`, not under `src/`) is the parameter `cond`. -/
def remove_nonmatching_universal_quantifiers
    (cond : Formula → Bool) (state : SolutionState) : SolutionState :=
  let univs := (get_conjuncts state.constraint).filter Formula.isForall
  ⟨univs.foldl (fun acc u => if cond u then replace_formula acc u trueF else acc)
      state.constraint,
    state.tree, 0⟩

/-- `ISLaSolver.remove_infeasible_universal_quantifiers` (solver.py lines
1221-1235): replace by `true` every universal conjunct that can no longer
match any extension of the tree.  The test (reachability plus unmatched
matches) is the parameter `cond`. -/
def remove_infeasible_universal_quantifiers
    (cond : Formula → Bool) (state : SolutionState) : SolutionState :=
  let univs := (get_conjuncts state.constraint).filter Formula.isForall
  ⟨univs.foldl (fun acc u => if cond u then replace_formula acc u trueF else acc)
      state.constraint,
    state.tree, 0⟩

/-- The solver-owned queue data touched by `state_is_valid_or_enqueue`: the
binary heap `queue` (the heap order is irrelevant to the claims, so it is
kept as a list of cost-state pairs) and the hash set
`tree_hashes_in_queue`. -/
structure QueueState where
  queue : List (ℚ × SolutionState)
  tree_hashes_in_queue : List Skel
deriving DecidableEq

/-- `ISLaSolver.state_is_valid_or_enqueue` (solver.py lines 1032-1110):
returns `true` (the caller yields the state's tree) iff the state is
complete; otherwise the state is discarded when de-duplication applies or
the constraint is `false`, and enqueued (with its level bumped and its tree
hash recorded) otherwise.  `cost` stands for `compute_cost`. -/
def state_is_valid_or_enqueue (enforce_unique_trees_in_queue : Bool)
    (cost : SolutionState → ℚ) (current_level : Nat)
    (qs : QueueState) (state : SolutionState) : Bool × QueueState :=
  if state.complete then (true, qs)
  else if enforce_unique_trees_in_queue = true
      ∧ state.tree.structural_hash ∈ qs.tree_hashes_in_queue then
    (false, qs)
  else if state.constraint = falseF then (false, qs)
  else
    let state' : SolutionState := ⟨state.constraint, state.tree, current_level + 1⟩
    (false, ⟨qs.queue ++ [(cost state', state')],
             qs.tree_hashes_in_queue ++ [state'.tree.structural_hash]⟩)

/-- `ISLaSolver.process_new_state` (solver.py lines 1024-1030): instantiate
structural predicates, re-establish the DNF invariant, prune universal
quantifiers, then yield the trees of the complete states and enqueue the
rest. -/
def process_new_state (evalPred : String → List TreeOrVar → DTree → Bool)
    (cond1 cond2 : Formula → Bool) (enforce_unique_trees_in_queue : Bool)
    (cost : SolutionState → ℚ) (current_level : Nat)
    (qs : QueueState) (state : SolutionState) : List DTree × QueueState :=
  let s1 := instantiate_structural_predicates evalPred state
  let states := establish_invariant s1
  let states := states.map (remove_nonmatching_universal_quantifiers cond1)
  let states := states.map (remove_infeasible_universal_quantifiers cond2)
  states.foldl (fun acc st =>
    let r := state_is_valid_or_enqueue enforce_unique_trees_in_queue cost
        current_level acc.2 st
    (acc.1 ++ (if r.1 then [st.tree] else []), r.2)) ([], qs)

/-! ## C3: the DNF invariant -/

theorem split_disjunction_not_disj (f : Formula) :
    ∀ d ∈ split_disjunction f, d.isDisj = false := by
  induction f
  case disj l r ihl ihr =>
    intro d hd
    rcases List.mem_append.1 hd with h | h
    · exact ihl d h
    · exact ihr d h
  all_goals
    intro d hd
    rw [List.mem_singleton.1 hd]
    rfl

theorem replace_formula_not_disj (f old new : Formula)
    (hf : f.isDisj = false) (hnew : new.isDisj = false) :
    (replace_formula f old new).isDisj = false := by
  unfold replace_formula
  split
  · exact hnew
  · cases f <;> first | rfl | simp_all [Formula.isDisj]

theorem foldl_replace_not_disj (cond : Formula → Bool) (l : List Formula)
    (c : Formula) (hc : c.isDisj = false) :
    (l.foldl (fun acc u => if cond u then replace_formula acc u trueF else acc)
      c).isDisj = false := by
  induction l generalizing c with
  | nil => exact hc
  | cons x xs ih =>
      rw [List.foldl_cons]
      cases hcx : cond x
      · rw [if_neg (by simp)]
        exact ih _ hc
      · rw [if_pos rfl]
        exact ih _ (replace_formula_not_disj _ _ _ hc rfl)

theorem establish_invariant_not_disj (s : SolutionState) :
    ∀ st ∈ establish_invariant s, st.constraint.isDisj = false := by
  intro st hst
  unfold establish_invariant at hst
  simp only [List.mem_map] at hst
  obtain ⟨d, hd, rfl⟩ := hst
  exact split_disjunction_not_disj _ d hd

theorem remove_nonmatching_not_disj (cond : Formula → Bool) (s : SolutionState)
    (hs : s.constraint.isDisj = false) :
    (remove_nonmatching_universal_quantifiers cond s).constraint.isDisj = false :=
  foldl_replace_not_disj cond _ _ hs

theorem remove_infeasible_not_disj (cond : Formula → Bool) (s : SolutionState)
    (hs : s.constraint.isDisj = false) :
    (remove_infeasible_universal_quantifiers cond s).constraint.isDisj = false :=
  foldl_replace_not_disj cond _ _ hs

theorem state_is_valid_or_enqueue_queue_not_disj
    (enforce : Bool) (cost : SolutionState → ℚ) (lvl : Nat)
    (qs : QueueState) (s : SolutionState)
    (hq : ∀ e ∈ qs.queue, (e.2 : SolutionState).constraint.isDisj = false)
    (hs : s.constraint.isDisj = false) :
    ∀ e ∈ (state_is_valid_or_enqueue enforce cost lvl qs s).2.queue,
      (e.2 : SolutionState).constraint.isDisj = false := by
  intro e he
  unfold state_is_valid_or_enqueue at he
  split at he
  · exact hq e he
  · split at he
    · exact hq e he
    · split at he
      · exact hq e he
      · simp only at he
        rcases List.mem_append.1 he with h | h
        · exact hq e h
        · simp at h
          subst h
          exact hs

/-- **C3**.  Every `SolutionState` pushed onto the solver's priority queue
has a constraint that is a single DNF disjunct: `process_new_state` converts
each successor's constraint to NNF then DNF and emits one state per
disjunct, and the subsequent quantifier-pruning steps preserve the
disjunction-free top level, so no enqueued state has a top-level disjunction
as its constraint.  (The theorem also covers `establish_invariant` alone,
which is the path taken for the initial states in `ISLaSolver.__init__`.) -/
theorem process_new_state_queue_constraints_single_disjunct
    (evalPred : String → List TreeOrVar → DTree → Bool)
    (cond1 cond2 : Formula → Bool) (enforce : Bool)
    (cost : SolutionState → ℚ) (lvl : Nat)
    (qs : QueueState) (s : SolutionState)
    (hq : ∀ e ∈ qs.queue, (e.2 : SolutionState).constraint.isDisj = false) :
    (∀ e ∈ (process_new_state evalPred cond1 cond2 enforce cost lvl qs s).2.queue,
        (e.2 : SolutionState).constraint.isDisj = false) ∧
    (∀ st ∈ establish_invariant s, st.constraint.isDisj = false) := by
  refine ⟨?_, establish_invariant_not_disj s⟩
  unfold process_new_state
  have key : ∀ (states : List SolutionState) (acc : List DTree × QueueState),
      (∀ st ∈ states, st.constraint.isDisj = false) →
      (∀ e ∈ acc.2.queue, (e.2 : SolutionState).constraint.isDisj = false) →
      ∀ e ∈ (states.foldl (fun acc st =>
          let r := state_is_valid_or_enqueue enforce cost lvl acc.2 st
          (acc.1 ++ (if r.1 then [st.tree] else []), r.2)) acc).2.queue,
        (e.2 : SolutionState).constraint.isDisj = false := by
    intro states
    induction states with
    | nil => intro acc _ hacc; exact hacc
    | cons x xs ih =>
        intro acc hsts hacc
        rw [List.foldl_cons]
        exact ih _ (fun st hst => hsts st (List.mem_cons_of_mem _ hst))
          (state_is_valid_or_enqueue_queue_not_disj enforce cost lvl acc.2 x hacc
            (hsts x (List.mem_cons_self _ _)))
  refine key _ _ ?_ hq
  intro st hst
  simp only [List.mem_map] at hst
  obtain ⟨st1, hst1, rfl⟩ := hst
  obtain ⟨st2, hst2, rfl⟩ := hst1
  exact remove_infeasible_not_disj cond2 _
    (remove_nonmatching_not_disj cond1 _ (establish_invariant_not_disj _ _ hst2))

/-- Witness for C3 at a concrete state: a constraint that is a disjunction
of two conjunctions is split, and each enqueued state carries a single
disjunct. -/
theorem process_new_state_queue_constraints_single_disjunct_witness :
    (∀ e ∈ (process_new_state (fun _ _ _ => true) (fun _ => false) (fun _ => false)
        true (fun _ => 0) 0 ⟨[], []⟩
        ⟨.disj (.smt (.atom 0 []) []) (.smt (.atom 1 []) []),
          .openNode "<start>" 0, 0⟩).2.queue,
      (e.2 : SolutionState).constraint.isDisj = false) ∧
    (∀ st ∈ establish_invariant
        ⟨.disj (.smt (.atom 0 []) []) (.smt (.atom 1 []) []),
          .openNode "<start>" 0, 0⟩, st.constraint.isDisj = false) :=
  process_new_state_queue_constraints_single_disjunct
    (fun _ _ _ => true) (fun _ => false) (fun _ => false) true (fun _ => 0) 0
    ⟨[], []⟩ _ (by intro e he; simp at he)

/-! ## C9: the unique top-level constant required by `ISLaSolver.__init__` -/

/-- A non-numeric constant (solver.py lines 224-227: `isinstance(c,
isla.Constant) and not c.is_numeric()`). -/
def isTopConstant (v : Var) : Bool := v.isConstant && !v.is_numeric

/-- The `top_constants` set of `ISLaSolver.__init__` (solver.py lines
224-228): the non-numeric constants collected from the formula, without
duplicates (Python builds a `set`). -/
def top_constants (f : Formula) : List Var :=
  ((collectVars f).filter isTopConstant).dedup

/-- The data of the initial `SolutionState` built by `ISLaSolver.__init__`
(solver.py lines 265-268). -/
structure InitState where
  constraint : Formula
  tree : DTree
deriving DecidableEq

/-- `ISLaSolver.__init__` (solver.py lines 220-229 and 265-268): the input
formula is alpha-renamed, then the assertion `len(top_constants) == 1` must
hold; the unique top constant is substituted by the open root tree
`DerivationTree(top_constant.n_type, None)` to form the initial state. -/
def ISLaSolver_init (formula : Formula) : Except String InitState :=
  match top_constants (ensure_unique_bound_variables formula) with
  | [c] =>
      .ok ⟨substConstExpr c (.openNode c.ntype 0)
            (ensure_unique_bound_variables formula),
          .openNode c.ntype 0⟩
  | _ => .error "assertion failed: len(top_constants) == 1"

theorem filter_top_map_renameVar (old new : Var)
    (ho : isTopConstant old = false) (hn : isTopConstant new = false)
    (l : List Var) :
    (l.map (renameVar old new)).filter isTopConstant = l.filter isTopConstant := by
  induction l with
  | nil => rfl
  | cons x xs ih =>
      by_cases hx : x = old
      · subst hx
        simp [renameVar, List.filter_cons, ho, hn, ih]
      · simp [renameVar, hx, List.filter_cons, ih]

theorem filterMap_var_renameTV (old new : Var) (args : List TreeOrVar) :
    (args.map (renameTV old new)).filterMap
        (fun a => match a with | .var v => some v | _ => none)
      = (args.filterMap
          (fun a => match a with | .var v => some v | _ => none)).map
            (renameVar old new) := by
  induction args with
  | nil => rfl
  | cons a rest ih =>
      cases a with
      | var v =>
          by_cases hv : v = old
          · subst hv
            simp [renameTV, renameVar, List.filterMap_cons, ih]
          · have hne : TreeOrVar.var v ≠ TreeOrVar.var old := by simpa using hv
            simp [renameTV, renameVar, hne, hv, List.filterMap_cons, ih]
      | tree t => simp [renameTV, List.filterMap_cons, ih]

theorem collectVars_renameVarIn (old new : Var) (g : Formula) :
    collectVars (renameVarIn old new g) = (collectVars g).map (renameVar old new) := by
  induction g with
  | smt e substs =>
      cases e <;>
        simp [renameVarIn, collectVars, List.map_map, Function.comp_def]
  | structPred n args =>
      simp only [renameVarIn, collectVars]
      exact filterMap_var_renameTV old new args
  | semPred n args =>
      simp only [renameVarIn, collectVars]
      exact filterMap_var_renameTV old new args
  | forallF bv bvs it inner am ih =>
      cases it with
      | var v =>
          by_cases hv : v = old
          · subst hv; simp [renameVarIn, collectVars, renameTV, renameVar, ih]
          · have hne : TreeOrVar.var v ≠ TreeOrVar.var old := by simpa using hv
            simp [renameVarIn, collectVars, renameTV, renameVar, hne, hv, ih]
      | tree t => simp [renameVarIn, collectVars, renameTV, ih]
  | existsF bv bvs it inner ih =>
      cases it with
      | var v =>
          by_cases hv : v = old
          · subst hv; simp [renameVarIn, collectVars, renameTV, renameVar, ih]
          · have hne : TreeOrVar.var v ≠ TreeOrVar.var old := by simpa using hv
            simp [renameVarIn, collectVars, renameTV, renameVar, hne, hv, ih]
      | tree t => simp [renameVarIn, collectVars, renameTV, ih]
  | introNum bv inner ih => simp [renameVarIn, collectVars, ih]
  | conj l r ihl ihr => simp [renameVarIn, collectVars, ihl, ihr]
  | disj l r ihl ihr => simp [renameVarIn, collectVars, ihl, ihr]
  | neg g ih => simp [renameVarIn, collectVars, ih]

theorem isTopConstant_boundVar (nm nt : String) :
    isTopConstant (.boundVar nm nt) = false := rfl

theorem renameBoundAux_top_constants (g : Formula) :
    ∀ n, (collectVars (renameBoundAux g n).1).filter isTopConstant
      = (collectVars g).filter isTopConstant := by
  induction g with
  | smt e substs => intro n; rfl
  | structPred _ _ => intro n; rfl
  | semPred _ _ => intro n; rfl
  | forallF bv bvs it inner am ih =>
      intro n
      cases bv with
      | boundVar nm nt =>
          simp [renameBoundAux, collectVars, List.filter_cons,
            List.filter_append, collectVars_renameVarIn, isTopConstant_boundVar,
            filter_top_map_renameVar (Var.boundVar nm nt)
              (Var.boundVar (nm ++ "_" ++ toString n) nt) rfl rfl, ih]
      | constant nm nt =>
          simp [renameBoundAux, collectVars, List.filter_cons,
            List.filter_append, ih]
  | existsF bv bvs it inner ih =>
      intro n
      cases bv with
      | boundVar nm nt =>
          simp [renameBoundAux, collectVars, List.filter_cons,
            List.filter_append, collectVars_renameVarIn, isTopConstant_boundVar,
            filter_top_map_renameVar (Var.boundVar nm nt)
              (Var.boundVar (nm ++ "_" ++ toString n) nt) rfl rfl, ih]
      | constant nm nt =>
          simp [renameBoundAux, collectVars, List.filter_cons,
            List.filter_append, ih]
  | introNum bv inner ih =>
      intro n
      simp [renameBoundAux, collectVars, List.filter_cons, ih]
  | conj l r ihl ihr =>
      intro n
      simp [renameBoundAux, collectVars, List.filter_append, ihl, ihr]
  | disj l r ihl ihr =>
      intro n
      simp [renameBoundAux, collectVars, List.filter_append, ihl, ihr]
  | neg g ih =>
      intro n
      simp [renameBoundAux, collectVars, ih]

theorem top_constants_ensure_unique (f : Formula) :
    top_constants (ensure_unique_bound_variables f) = top_constants f := by
  unfold top_constants ensure_unique_bound_variables
  rw [renameBoundAux_top_constants]

/-- **C9**.  `ISLaSolver.__init__` requires the input formula to contain
exactly one non-numeric constant: if the number of such constants is not
one, construction fails its assertion; with exactly one constant `c`, that
constant is substituted by the initial open root tree of type `c.n_type` to
form the initial state. -/
theorem ISLaSolver_init_unique_top_constant (formula : Formula) :
    ((top_constants formula).length ≠ 1 →
      (ISLaSolver_init formula).isOk = false) ∧
    (∀ c, top_constants formula = [c] →
      ISLaSolver_init formula =
        .ok ⟨substConstExpr c (.openNode c.ntype 0)
              (ensure_unique_bound_variables formula),
            .openNode c.ntype 0⟩) := by
  have hp := top_constants_ensure_unique formula
  constructor
  · intro hne
    unfold ISLaSolver_init
    split
    · next c heq =>
        exact absurd (by rw [← hp, heq] : top_constants formula = [c])
          (fun h => hne (by rw [h]; rfl))
    · rfl
  · intro c hc
    unfold ISLaSolver_init
    split
    · next c' heq =>
        have : c' = c := by
          have h1 : ([c'] : List Var) = [c] := by rw [← heq, hp, hc]
          simpa using h1
        rw [this]
    · next hno =>
        exact absurd (by rw [hp, hc] : top_constants
          (ensure_unique_bound_variables formula) = [c]) (by
            intro h
            exact (hno c h).elim)

/-- Witness for C9: a formula with no non-numeric constant is rejected; a
formula with exactly the constant `start : <start>` yields the initial
state with the constant substituted by the open root tree. -/
theorem ISLaSolver_init_unique_top_constant_witness :
    (ISLaSolver_init (.smt (.boolVal true) [])).isOk = false ∧
    ISLaSolver_init (.smt (.atom 0 [.constant "start" "<start>"]) []) =
      .ok ⟨.smt (.atom 0 [.constant "start" "<start>"])
            [(.constant "start" "<start>", .openNode "<start>" 0)],
          .openNode "<start>" 0⟩ := by
  constructor
  · exact (ISLaSolver_init_unique_top_constant (.smt (.boolVal true) [])).1
      (by decide)
  · have h := (ISLaSolver_init_unique_top_constant
      (.smt (.atom 0 [.constant "start" "<start>"]) [])).2
      (.constant "start" "<start>") (by decide)
    rw [h]
    rfl

/-! ## C8: zero cost for solved states -/

def DTree.value : DTree → String
  | .openNode v _ => v
  | .inner v _ _ => v

/-- `compute_tree_closing_cost` (solver.py lines 1323-1325): the sum of the
symbol costs of the open leaves. -/
def compute_tree_closing_cost (tree : DTree) (symbol_costs : String → ℚ) : ℚ :=
  ((tree.open_leaves).map (fun pl => symbol_costs pl.2.value)).sum

def Formula.isExists : Formula → Bool
  | .existsF _ _ _ _ => true
  | _ => false

/-- `get_quantifier_chains` (solver.py lines 1343-1346, with
`isla.get_toplevel_quantified_formulas` inlined as the conj/disj traversal):
all maximal chains of nested top-level quantified formulas. -/
def get_quantifier_chains : Formula → List (List Formula)
  | .conj l r => get_quantifier_chains l ++ get_quantifier_chains r
  | .disj l r => get_quantifier_chains l ++ get_quantifier_chains r
  | .forallF bv bvs it inner am =>
      let cs := get_quantifier_chains inner
      (if cs.isEmpty then [[]] else cs).map
        (fun c => (Formula.forallF bv bvs it inner am) :: c)
  | .existsF bv bvs it inner =>
      let cs := get_quantifier_chains inner
      (if cs.isEmpty then [[]] else cs).map
        (fun c => (Formula.existsF bv bvs it inner) :: c)
  | .introNum bv inner =>
      let cs := get_quantifier_chains inner
      (if cs.isEmpty then [[]] else cs).map
        (fun c => (Formula.introNum bv inner) :: c)
  | _ => []

/-- The `constraint_cost` component of the module-level `compute_cost`
(solver.py lines 1290-1293): depth-weighted counts over quantifier chains
with existentials weighted double. -/
def constraint_cost_of (f : Formula) : ℚ :=
  ((get_quantifier_chains f).map (fun c =>
    (c.enum.map (fun ix =>
      (ix.1 : ℚ) * (if ix.2.isExists then 2 else 1) + 1)).sum)).sum

/-- `CostWeightVector` (solver.py lines 100-143). -/
structure CostWeightVector where
  tree_closing_cost : ℚ
  vacuous_penalty : ℚ
  constraint_cost : ℚ
  derivation_depth_penalty : ℚ
  low_k_coverage_penalty : ℚ
  low_global_k_path_coverage_penalty : ℚ
deriving DecidableEq

/-- `CostWeightVector.__iter__` (solver.py lines 116-124). -/
def CostWeightVector.toList (w : CostWeightVector) : List ℚ :=
  [w.tree_closing_cost, w.vacuous_penalty, w.constraint_cost,
   w.derivation_depth_penalty, w.low_k_coverage_penalty,
   w.low_global_k_path_coverage_penalty]

/-- `CostSettings` (solver.py lines 146-160). -/
structure CostSettings where
  weight_vectors : List CostWeightVector
  cost_phase_lengths : List Nat
  k : Nat
deriving DecidableEq

/-- The module-level `compute_cost` (solver.py lines 1275-1320).  The
external ingredients are parameters: `wgm` is `weighted_geometric_mean`
(`isla.helpers`, not under `src/`); `vacuous_penalty_value` is
`compute_vacuous_penalty` (which calls the quantifier eliminator of
`isla.isla`); `k_cov_cost` and `global_k_path_cost` are the k-path coverage
components (which query the external grammar-graph library; the global one
is modelled separately for C10). -/
def module_compute_cost (symbol_costs : String → ℚ)
    (wgm : List ℚ → List ℚ → ℚ)
    (vacuous_penalty_value k_cov_cost global_k_path_cost : ℚ)
    (cost_weight_vector : CostWeightVector) (state : SolutionState) : ℚ :=
  let tree_closing_cost := compute_tree_closing_cost state.tree symbol_costs
  let ccost := constraint_cost_of state.constraint
  let vacuous_penalty :=
    if cost_weight_vector.vacuous_penalty = 0 then 0 else vacuous_penalty_value
  let costs := [tree_closing_cost, vacuous_penalty, ccost, (state.level : ℚ),
    k_cov_cost, global_k_path_cost]
  wgm costs cost_weight_vector.toList

/-- The cost-phase bookkeeping fields of the solver touched by
`ISLaSolver.compute_cost` (`len(self.queue)`, `current_cost_phase`,
`current_cost_phase_since`). -/
structure CostPhaseState where
  queue_length : Nat
  current_cost_phase : Nat
  current_cost_phase_since : Nat
deriving DecidableEq

/-- `ISLaSolver.compute_cost` (solver.py lines 1118-1143): return 0
immediately when the constraint is `sc.true()`; otherwise rotate the cost
phase if the current phase budget is exhausted and delegate to the
module-level `compute_cost` with the current phase's weight vector. -/
def ISLaSolver_compute_cost (settings : CostSettings)
    (symbol_costs : String → ℚ) (wgm : List ℚ → List ℚ → ℚ)
    (vacuous_penalty_value k_cov_cost global_k_path_cost : ℚ)
    (ph : CostPhaseState) (state : SolutionState) : ℚ × CostPhaseState :=
  if state.constraint = trueF then (0, ph)
  else
    let ph' :=
      if ph.queue_length - ph.current_cost_phase_since >
          settings.cost_phase_lengths.getD ph.current_cost_phase 0 then
        { ph with
          current_cost_phase_since := ph.queue_length,
          current_cost_phase :=
            (ph.current_cost_phase + 1) % settings.weight_vectors.length }
      else ph
    let wv := settings.weight_vectors.getD ph'.current_cost_phase
      ⟨0, 0, 0, 0, 0, 0⟩
    (module_compute_cost symbol_costs wgm vacuous_penalty_value k_cov_cost
      global_k_path_cost wv state, ph')

/-- **C8**.  For every state whose constraint equals `sc.true()`,
`ISLaSolver.compute_cost` returns 0 — independently of the weight vectors,
the cost phase, the external cost ingredients, the tree shape and the level
(all of which are universally quantified here) — and it leaves the cost
phase unchanged. -/
theorem compute_cost_zero_for_solved (settings : CostSettings)
    (symbol_costs : String → ℚ) (wgm : List ℚ → List ℚ → ℚ)
    (vacuous_penalty_value k_cov_cost global_k_path_cost : ℚ)
    (ph : CostPhaseState) (state : SolutionState)
    (h : state.constraint = trueF) :
    ISLaSolver_compute_cost settings symbol_costs wgm vacuous_penalty_value
      k_cov_cost global_k_path_cost ph state = (0, ph) := by
  unfold ISLaSolver_compute_cost
  rw [if_pos h]

/-- Witness for C8 at a concrete solved state (nonzero weights, nonzero
external ingredients, nontrivial tree and level). -/
theorem compute_cost_zero_for_solved_witness :
    ISLaSolver_compute_cost ⟨[⟨11, 0, 3, 5, 20, 10⟩], [200], 3⟩
      (fun _ => 7) (fun cs ws => cs.sum + ws.sum) 1 1 1 ⟨5, 0, 0⟩
      ⟨trueF, .inner "<start>" (.cons (.openNode "<A>" 1) .nil) 0, 4⟩
      = (0, ⟨5, 0, 0⟩) :=
  compute_cost_zero_for_solved _ _ _ _ _ _ _ _ rfl

/-! ## C10: the covered-k-paths reset keeps the coverage denominator
nonzero -/

/-- The covered-k-path update at the end of `ISLaSolver.process_new_states`
(solver.py lines 1008-1022): add the k-paths of the new states' trees to
`covered_k_paths`, and reset the set to empty as soon as it equals the full
k-path set of the grammar graph.  k-paths themselves come from the external
grammar-graph library, so they are an abstract type here. -/
def process_new_states_k_path_update {α : Type} [DecidableEq α]
    (graph_k_paths : Finset α) (tree_k_paths : List (Finset α))
    (covered_k_paths : Finset α) : Finset α :=
  let c := tree_k_paths.foldl (fun acc t => acc ∪ t) covered_k_paths
  if c = graph_k_paths then ∅ else c

/-- `compute_global_k_coverage_cost` (solver.py lines 1328-1336):
`1 - contributed / missing` where `missing` is the number of still-uncovered
k-paths. -/
def compute_global_k_coverage_cost {α : Type} [DecidableEq α]
    (covered_k_paths graph_k_paths state_tree_k_paths : Finset α) : ℚ :=
  let num_contributed_k_paths := (graph_k_paths.filter
    (fun p => p ∈ state_tree_k_paths ∧ p ∉ covered_k_paths)).card
  let num_missing_k_paths := graph_k_paths.card - covered_k_paths.card
  1 - (num_contributed_k_paths : ℚ) / (num_missing_k_paths : ℚ)

theorem foldl_union_subset {α : Type} [DecidableEq α]
    (full : Finset α) (l : List (Finset α)) (c : Finset α)
    (hc : c ⊆ full) (hl : ∀ t ∈ l, t ⊆ full) :
    l.foldl (fun acc t => acc ∪ t) c ⊆ full := by
  induction l generalizing c with
  | nil => exact hc
  | cons x xs ih =>
      rw [List.foldl_cons]
      exact ih _ (Finset.union_subset hc (hl x (List.mem_cons_self _ _)))
        (fun t ht => hl t (List.mem_cons_of_mem _ ht))

/-- **C10**.  Whenever process_new_states finishes its covered-k-path
update, the solver's `covered_k_paths` set is a strict subset of the grammar
graph's k-paths (the reset fires exactly when the union reaches the full
set), so the denominator `num_missing_k_paths` used by
`compute_global_k_coverage_cost` at the next cost computation is nonzero
and the division never divides by zero. -/
theorem covered_k_paths_strict_subset {α : Type} [DecidableEq α]
    (graph_k_paths : Finset α) (tree_k_paths : List (Finset α))
    (covered : Finset α)
    (h1 : covered ⊆ graph_k_paths)
    (h2 : ∀ t ∈ tree_k_paths, t ⊆ graph_k_paths)
    (h3 : graph_k_paths.Nonempty) :
    process_new_states_k_path_update graph_k_paths tree_k_paths covered
        ⊂ graph_k_paths ∧
    ((graph_k_paths.card -
        (process_new_states_k_path_update graph_k_paths tree_k_paths
          covered).card : ℕ) : ℚ) ≠ 0 := by
  have hstrict : process_new_states_k_path_update graph_k_paths tree_k_paths
      covered ⊂ graph_k_paths := by
    have hsub := foldl_union_subset graph_k_paths tree_k_paths covered h1 h2
    have hdef : process_new_states_k_path_update graph_k_paths tree_k_paths
        covered =
        if List.foldl (fun acc t => acc ∪ t) covered tree_k_paths
            = graph_k_paths then ∅
        else List.foldl (fun acc t => acc ∪ t) covered tree_k_paths := rfl
    rw [hdef]
    split
    · exact Finset.empty_ssubset.2 h3
    · next hne => exact Finset.ssubset_iff_subset_ne.2 ⟨hsub, hne⟩
  refine ⟨hstrict, ?_⟩
  have hcard := Finset.card_lt_card hstrict
  have hpos : 0 < graph_k_paths.card -
      (process_new_states_k_path_update graph_k_paths tree_k_paths
        covered).card := by omega
  exact_mod_cast Nat.pos_iff_ne_zero.1 hpos

/-- Witness for C10 with one concrete k-path and an empty covered set. -/
theorem covered_k_paths_strict_subset_witness :
    process_new_states_k_path_update ({0} : Finset ℕ) [{0}] ∅ ⊂ {0} ∧
    ((({0} : Finset ℕ).card -
        (process_new_states_k_path_update ({0} : Finset ℕ) [{0}] ∅).card
        : ℕ) : ℚ) ≠ 0 :=
  covered_k_paths_strict_subset {0} [{0}] ∅ (by simp) (by simp)
    ⟨0, by simp⟩

/-! ## C2: the fixed rule priority of one `solve()` iteration -/

/-- The rule bodies of one `ISLaSolver.solve()` iteration (solver.py lines
291-404), abstracted over the state type: each field is the corresponding
solver method.  A rule that "does not apply" returns `none` exactly as the
solver method returns `None`; the tree expansion is guarded separately by
the presence of a universal conjunct, and the free-instantiation fallback
always produces successors.  `instantiate_structural_predicates` rewrites
the state in place before the rules and never produces successors. -/
structure SolveRules (St : Type) where
  instantiate_structural_predicates : St → St
  constraint_is_false : St → Bool
  instantiate_numeric_constant_intros : St → Option St
  match_all_universal_formulas : St → Option (List St)
  has_universal_conjunct : St → Bool
  expand_tree : St → List St
  eliminate_all_semantic_formulas : St → Option (List St)
  eliminate_all_ready_semantic_predicate_formulas : St → Option St
  eliminate_first_match_all_existential_formulas : St → Option (List St)
  free_instantiation : St → List St

/-- The outcome of one iteration of the main loop: the popped state is
either discarded (`continue` after the `false` check) or the successor
states of exactly one rule are processed. -/
inductive IterationOutcome (St : Type) where
  | discarded
  | processed (successors : List St)
deriving DecidableEq

/-- One iteration of `ISLaSolver.solve()` (solver.py lines 320-404),
transcribed control-flow by control-flow: instantiate all concrete
structural predicate atoms, discard on `false`, then try numeric constant
introduction, universal matching, tree expansion (iff a universal conjunct
remains), SMT elimination, ready semantic predicates, existential
elimination, and finally free instantiation by the fuzzer. -/
def solve_iteration {St : Type} (R : SolveRules St) (state : St) :
    IterationOutcome St :=
  let state := R.instantiate_structural_predicates state
  if R.constraint_is_false state then .discarded
  else match R.instantiate_numeric_constant_intros state with
  | some s => .processed [s]
  | none => match R.match_all_universal_formulas state with
    | some states => .processed states
    | none =>
      if R.has_universal_conjunct state then .processed (R.expand_tree state)
      else match R.eliminate_all_semantic_formulas state with
      | some states => .processed states
      | none => match R.eliminate_all_ready_semantic_predicate_formulas state with
        | some s => .processed [s]
        | none => match R.eliminate_first_match_all_existential_formulas state with
          | some states => .processed states
          | none => .processed (R.free_instantiation state)

/-- The spec-side rule list (spec.md §4.G step 2, rules b-h), in the fixed
priority order stated by the claim: numeric constant introduction,
universal matching, expansion, SMT elimination, ready semantic predicates,
existential elimination, free fuzzing.  Each entry returns `some
successors` iff the rule applies (yields progress). -/
def claimRuleList {St : Type} (R : SolveRules St) : List (St → Option (List St)) :=
  [fun s => (R.instantiate_numeric_constant_intros s).map (fun x => [x]),
   R.match_all_universal_formulas,
   fun s => if R.has_universal_conjunct s then some (R.expand_tree s) else none,
   R.eliminate_all_semantic_formulas,
   fun s => (R.eliminate_all_ready_semantic_predicate_formulas s).map (fun x => [x]),
   R.eliminate_first_match_all_existential_formulas,
   fun s => some (R.free_instantiation s)]

/-- The first rule in the list that applies determines the successors. -/
def first_applicable {St : Type} :
    List (St → Option (List St)) → St → Option (List St)
  | [], _ => none
  | r :: rs, s => match r s with
    | some out => some out
    | none => first_applicable rs s

/-- The claim's reading of one iteration: apply rule (a) as in-place
preprocessing, discard a falsified state, and otherwise take the successors
of the first applicable rule among (b)-(h). -/
def claim_iteration {St : Type} (R : SolveRules St) (state : St) :
    IterationOutcome St :=
  let state := R.instantiate_structural_predicates state
  if R.constraint_is_false state then .discarded
  else match first_applicable (claimRuleList R) state with
    | some succ => .processed succ
    | none => .discarded

/-- **C2**.  In every iteration of `ISLaSolver.solve()`, after popping the
minimum-cost state, the rules are attempted in the fixed order (a)
structural predicate instantiation (in place), (b) numeric constant
introduction, (c) universal matching, (d) tree expansion when a universal
formula remains, (e) SMT elimination, (f) ready semantic predicates, (g)
existential elimination, (h) free fuzzing — and the first rule among
(b)-(h) that yields progress determines the successor states and ends the
iteration: the transcribed iteration equals the first-applicable-rule
dispatch over the ordered rule list. -/
theorem solve_iteration_is_fixed_priority {St : Type} (R : SolveRules St)
    (state : St) :
    solve_iteration R state = claim_iteration R state := by
  unfold solve_iteration claim_iteration claimRuleList
  cases hf : R.constraint_is_false (R.instantiate_structural_predicates state) <;>
  cases hn : R.instantiate_numeric_constant_intros
    (R.instantiate_structural_predicates state) <;>
  cases hm : R.match_all_universal_formulas
    (R.instantiate_structural_predicates state) <;>
  cases hu : R.has_universal_conjunct
    (R.instantiate_structural_predicates state) <;>
  cases he : R.eliminate_all_semantic_formulas
    (R.instantiate_structural_predicates state) <;>
  cases hr : R.eliminate_all_ready_semantic_predicate_formulas
    (R.instantiate_structural_predicates state) <;>
  cases hx : R.eliminate_first_match_all_existential_formulas
    (R.instantiate_structural_predicates state) <;>
  simp [first_applicable, hf, hn, hm, hu, he, hr, hx]

/-! ## C4: de-duplication applies to the queue, not to yielded trees -/

/-- The free-instantiation branch of `ISLaSolver.solve()` for a state whose
constraint is `true` (solver.py lines 385-392): `max_number_free_
instantiations` times, complete every open leaf of the tree with a tree
produced by the external `GrammarCoverageFuzzer` (modelled by the parameter
`fuzz`, indexed by the loop iteration and the leaf symbol) and process the
resulting state; the yielded trees of all iterations are concatenated. -/
def solve_free_instantiation (max_number_free_instantiations : Nat)
    (fuzz : Nat → String → DTree)
    (evalPred : String → List TreeOrVar → DTree → Bool)
    (cond1 cond2 : Formula → Bool) (enforce : Bool)
    (cost : SolutionState → ℚ) (lvl : Nat)
    (qs : QueueState) (state : SolutionState) : List DTree × QueueState :=
  (List.range max_number_free_instantiations).foldl (fun acc i =>
    let result := state.tree.open_leaves.foldl
      (fun t pl => t.replace_path pl.1 (fuzz i pl.2.value)) state.tree
    let r := process_new_state evalPred cond1 cond2 enforce cost lvl acc.2
        ⟨state.constraint, result, 0⟩
    (acc.1 ++ r.1, r.2)) ([], qs)

/-- The run of the free-instantiation branch on the grammar
`<start> ::= "a"` (where the external fuzzer can only ever produce the tree
`<start>("a")`, hence the constant `fuzz`), starting from the initial state
`(true, <start> open)`, with `enforce_unique_trees_in_queue = true` and the
default `max_number_free_instantiations = 10`. -/
def free_instantiation_example_run : List DTree × QueueState :=
  solve_free_instantiation 10
    (fun _ _ => .inner "<start>" (.cons (.inner "a" .nil 2) .nil) 1)
    (fun _ _ _ => true) (fun _ => false) (fun _ => false) true (fun _ => 0) 0
    ⟨[], []⟩ ⟨trueF, .openNode "<start>" 0, 0⟩

/-- **C4, counterexample**.  With `enforce_unique_trees_in_queue = true`,
two trees yielded by `solve()` over the whole run *can* have equal
structural hash: complete states are yielded before the hash check is ever
consulted, so on the single-string grammar `<start> ::= "a"` the
free-instantiation branch yields ten structurally identical trees. -/
theorem solve_yields_can_share_structural_hash :
    2 ≤ free_instantiation_example_run.1.length ∧
    (free_instantiation_example_run.1.getD 0 (.openNode "x" 0)).structural_hash
      = (free_instantiation_example_run.1.getD 1
          (.openNode "x" 0)).structural_hash := by
  constructor
  · decide
  · decide

/-- The queue-side de-duplication invariant: the recorded hash set is
exactly the list of structural hashes of the queued trees, and it contains
no duplicates. -/
def queue_hashes_invariant (qs : QueueState) : Prop :=
  qs.queue.map (fun e => (e.2 : SolutionState).tree.structural_hash)
      = qs.tree_hashes_in_queue ∧
  qs.tree_hashes_in_queue.Nodup

/-- **C4, amended**.  With `enforce_unique_trees_in_queue = true`,
`state_is_valid_or_enqueue` preserves the property that no two states in
the queue have trees with equal structural hash (an incomplete state whose
tree hash is already recorded is discarded, and an enqueued state's hash is
recorded); yielded trees bypass this check entirely — the rule returns
`true` exactly for complete states, before the hash set is consulted. -/
theorem state_is_valid_or_enqueue_dedup
    (cost : SolutionState → ℚ) (lvl : Nat) (qs : QueueState)
    (s : SolutionState) (hq : queue_hashes_invariant qs) :
    queue_hashes_invariant (state_is_valid_or_enqueue true cost lvl qs s).2 ∧
    ((state_is_valid_or_enqueue true cost lvl qs s).1 = true ↔
      s.complete = true) := by
  unfold state_is_valid_or_enqueue
  split
  · next hc => exact ⟨hq, by simp [hc]⟩
  · next hc =>
      split
      · next hmem => exact ⟨hq, by simp [hc]⟩
      · next hmem =>
          have hnotmem : s.tree.structural_hash ∉ qs.tree_hashes_in_queue :=
            fun hin => hmem ⟨rfl, hin⟩
          split
          · exact ⟨hq, by simp [hc]⟩
          · refine ⟨⟨?_, ?_⟩, by simp [hc]⟩
            · simp only [List.map_append, List.map_cons, List.map_nil]
              rw [hq.1]
            · rw [List.nodup_append]
              refine ⟨hq.2, List.nodup_singleton _, ?_⟩
              intro a ha hb
              rw [List.mem_singleton] at hb
              subst hb
              exact hnotmem ha

/-- Witness for the amended C4 on a concrete queue holding one state. -/
theorem state_is_valid_or_enqueue_dedup_witness :
    queue_hashes_invariant
      (state_is_valid_or_enqueue true (fun _ => 0) 0
        ⟨[(0, ⟨falseF, .openNode "<A>" 3, 0⟩)], [.openNode "<A>"]⟩
        ⟨.smt (.atom 0 []) [], .openNode "<B>" 4, 0⟩).2 ∧
    ((state_is_valid_or_enqueue true (fun _ => 0) 0
        ⟨[(0, ⟨falseF, .openNode "<A>" 3, 0⟩)], [.openNode "<A>"]⟩
        ⟨.smt (.atom 0 []) [], .openNode "<B>" 4, 0⟩).1 = true ↔
      (SolutionState.complete ⟨.smt (.atom 0 []) [], .openNode "<B>" 4, 0⟩)
        = true) :=
  state_is_valid_or_enqueue_dedup (fun _ => 0) 0
    ⟨[(0, ⟨falseF, .openNode "<A>" 3, 0⟩)], [.openNode "<A>"]⟩
    ⟨.smt (.atom 0 []) [], .openNode "<B>" 4, 0⟩
    ⟨by decide, by decide⟩

/-! ## C5, C6: `ISLaSolver.solve_quantifier_free_formula` -/

/-- An SMT string constant as seen by the SMT bridge (a variable name plus
its nonterminal type or the numeric sort). -/
structure SMTConstant where
  name : String
  ntype : String
deriving DecidableEq

def SMTConstant.is_numeric (c : SMTConstant) : Bool := c.ntype = "NUM"

/-- The z3 regular expressions built by `solve_quantifier_free_formula`
(solver.py lines 923-937).  `decimalInt` is the literal
`z3.Union(z3.Re("0"), z3.Concat(z3.Range("1","9"), z3.Star(z3.Range("0","9"))))`;
`extracted nt` stands for `self.extract_regular_expression(nt)` (the
external grammar-to-regex converter); `lit`/`concat` mirror `z3.Re` and
`z3.Concat`. -/
inductive RegexCode where
  | decimalInt
  | extracted (nonterminal : String)
  | lit (s : String)
  | concat (rs : List RegexCode)

/-- The z3 formulas assembled by `solve_quantifier_free_formula` (solver.py
lines 921-945): per-constant regular-language constraints, the negated
previous assignments, and the SMT atom bodies (opaque here). -/
inductive Z3Expr where
  | inRe (var : String) (regex : RegexCode)
  | notEq (var : String) (val : String)
  | orE (disjuncts : List Z3Expr)
  | atom (n : Nat)

/-- Truth of a modelled z3 formula under a string model `m`; the opaque
atoms and the regular-expression memberships are interpreted by the
parameters `atomSem` and `reSem`. -/
def evalZ3 (atomSem : Nat → Bool) (reSem : String → RegexCode → Bool)
    (m : String → String) : Z3Expr → Bool
  | .inRe v r => reSem (m v) r
  | .notEq v val => decide (m v ≠ val)
  | .orE ds => ds.attach.any (fun d => evalZ3 atomSem reSem m d.1)
  | .atom n => atomSem n
decreasing_by
  simp_wf
  have := List.sizeOf_lt_of_mem d.2
  omega

theorem evalZ3_orE (atomSem : Nat → Bool) (reSem : String → RegexCode → Bool)
    (m : String → String) (ds : List Z3Expr) :
    evalZ3 atomSem reSem m (.orE ds) = true ↔
      ∃ d ∈ ds, evalZ3 atomSem reSem m d = true := by
  rw [evalZ3]
  constructor
  · intro h
    rcases List.any_eq_true.1 h with ⟨⟨d, hd⟩, _, hf⟩
    exact ⟨d, hd, hf⟩
  · rintro ⟨d, hd, hf⟩
    exact List.any_eq_true.2 ⟨⟨d, hd⟩, List.mem_attach _ _, hf⟩

/-- Modelled from the spec (§4.F step 2; `split_str_with_nonterminals` is in
`isla.helpers`, not under `src/`): split a string into maximal
angle-bracketed nonterminal tokens and literal segments. -/
def splitMode : List Char → Bool → List Char → List String → List String
  | [], _, cur, out =>
      out ++ (if cur.isEmpty then [] else [String.mk cur.reverse])
  | c :: rest, false, cur, out =>
      if c = '<' then
        splitMode rest true ['<']
          (out ++ (if cur.isEmpty then [] else [String.mk cur.reverse]))
      else splitMode rest false (c :: cur) out
  | c :: rest, true, cur, out =>
      if c = '>' then
        splitMode rest false [] (out ++ [String.mk ('>' :: cur).reverse])
      else splitMode rest true (c :: cur) out

def split_str_with_nonterminals (s : String) : List String :=
  splitMode s.data false [] []

/-- The regular-language constraint chosen for one constant (solver.py
lines 923-937): the decimal-integer regex for numeric constants, the
concatenation of per-piece regexes when a partially-known tree substitution
is available, and the extracted regex of the constant's type otherwise. -/
def regexForConstant (extractRegex : String → RegexCode)
    (tree_substitutions : List (SMTConstant × DTree)) (c : SMTConstant) :
    RegexCode :=
  if c.is_numeric then .decimalInt
  else match tree_substitutions.find? (fun p => p.1 = c) with
    | some p =>
        let regexes := (split_str_with_nonterminals p.2.render).map
          (fun t => if is_nonterminal t then extractRegex t else .lit t)
        match regexes with
        | [r] => r
        | rs => .concat rs
    | none => extractRegex c.ntype

/-- The list of formulas passed to the SMT solver in one iteration of
`solve_quantifier_free_formula` (solver.py lines 921-945): one `InRe` per
constant, then — for each previous solution — one single `Or` of the
negated equalities over the entire assignment vector (line 940:
`z3_or([z3.Not(constant.to_smt() == string_val) ...])`), then the SMT atom
bodies. -/
def buildFormulas (extractRegex : String → RegexCode)
    (constants : List SMTConstant)
    (tree_substitutions : List (SMTConstant × DTree))
    (internal_solutions : List (List (String × String)))
    (smt_atoms : List Z3Expr) : List Z3Expr :=
  (constants.map (fun c =>
      Z3Expr.inRe c.name (regexForConstant extractRegex tree_substitutions c)))
    ++ internal_solutions.map (fun prev_solution =>
        Z3Expr.orE (prev_solution.map (fun cv => Z3Expr.notEq cv.1 cv.2)))
    ++ smt_atoms

/-- The key of one entry of a solution (solver.py line 958:
`tree_substitutions.get(constant, constant)`). -/
inductive SolKey where
  | tree (t : DTree)
  | const (c : SMTConstant)
deriving DecidableEq

/-- `new_solution` (solver.py lines 957-964): map each constant's key to a
fresh tree — a plain string node for numeric constants, the Earley-parsed
tree otherwise (`self.parse` wraps the external parser, hence the
parameter). -/
def mkNewSolution (parse : String → String → DTree)
    (tree_substitutions : List (SMTConstant × DTree))
    (constants : List SMTConstant) (m : String → String) :
    List (SolKey × DTree) :=
  constants.map (fun c =>
    (match tree_substitutions.find? (fun p => p.1 = c) with
      | some p => SolKey.tree p.2
      | none => SolKey.const c,
     if c.is_numeric then DTree.inner (m c.name) .nil 0
     else parse c.ntype (m c.name)))

/-- `new_internal_solution` (solver.py lines 966-968): the raw assignment
vector over the constants. -/
def mkInternalSolution (constants : List SMTConstant) (m : String → String) :
    List (String × String) :=
  constants.map (fun c => (c.name, m c.name))

/-- The query loop of `ISLaSolver.solve_quantifier_free_formula` (solver.py
lines 920-978), with the SMT backend as the oracle parameter (`z3_solve`
returning a model on `sat` and `none` on any non-`sat` result).  The third
component of the result counts the solver queries made.  The preamble of
the method (lines 888-915: conflict filtering and the union of the
formulas' substitutions and variables) computes the `constants`,
`tree_substitutions` and `smt_atoms` arguments. -/
def solveQFFAux (oracle : List Z3Expr → Option (String → String))
    (parse : String → String → DTree) (extractRegex : String → RegexCode)
    (constants : List SMTConstant)
    (tree_substitutions : List (SMTConstant × DTree))
    (smt_atoms : List Z3Expr) :
    Nat → List (List (SolKey × DTree)) → List (List (String × String)) →
    (List (List (SolKey × DTree)) × List (List (String × String)) × Nat)
  | 0, solutions, internal_solutions => (solutions, internal_solutions, 0)
  | fuel + 1, solutions, internal_solutions =>
      let formulas := buildFormulas extractRegex constants tree_substitutions
        internal_solutions smt_atoms
      match oracle formulas with
      | none => (solutions, internal_solutions, 1)
      | some m =>
          let new_solution := mkNewSolution parse tree_substitutions constants m
          let new_internal_solution := mkInternalSolution constants m
          if new_solution ∈ solutions then (solutions, internal_solutions, 1)
          else
            let r := solveQFFAux oracle parse extractRegex constants
              tree_substitutions smt_atoms fuel (solutions ++ [new_solution])
              (internal_solutions ++ [new_internal_solution])
            (r.1, r.2.1, r.2.2 + 1)

/-- `ISLaSolver.solve_quantifier_free_formula` (solver.py lines 884-978). -/
def solve_quantifier_free_formula (max_number_smt_instantiations : Nat)
    (oracle : List Z3Expr → Option (String → String))
    (parse : String → String → DTree) (extractRegex : String → RegexCode)
    (constants : List SMTConstant)
    (tree_substitutions : List (SMTConstant × DTree))
    (smt_atoms : List Z3Expr) :
    List (List (SolKey × DTree)) × List (List (String × String)) × Nat :=
  solveQFFAux oracle parse extractRegex constants tree_substitutions smt_atoms
    max_number_smt_instantiations [] []

/-- **C5**.  `solve_quantifier_free_formula` returns the empty list if the
SMT solver reports non-sat on the very first query, and returns exactly the
previously accumulated solutions if the SMT solver reports non-sat on any
later query (solver.py lines 947-953). -/
theorem solve_qff_non_sat_returns_accumulated
    (oracle : List Z3Expr → Option (String → String))
    (parse : String → String → DTree) (extractRegex : String → RegexCode)
    (constants : List SMTConstant)
    (tree_substitutions : List (SMTConstant × DTree))
    (smt_atoms : List Z3Expr) :
    (∀ fuel solutions internal_solutions,
      oracle (buildFormulas extractRegex constants tree_substitutions
          internal_solutions smt_atoms) = none →
      (solveQFFAux oracle parse extractRegex constants tree_substitutions
          smt_atoms (fuel + 1) solutions internal_solutions).1 = solutions) ∧
    (∀ max_number_smt_instantiations,
      oracle (buildFormulas extractRegex constants tree_substitutions
          [] smt_atoms) = none →
      (solve_quantifier_free_formula max_number_smt_instantiations oracle
          parse extractRegex constants tree_substitutions smt_atoms).1 = []) := by
  have step : ∀ fuel solutions internal_solutions,
      oracle (buildFormulas extractRegex constants tree_substitutions
          internal_solutions smt_atoms) = none →
      (solveQFFAux oracle parse extractRegex constants tree_substitutions
          smt_atoms (fuel + 1) solutions internal_solutions).1 = solutions := by
    intro fuel solutions internal_solutions h
    rw [solveQFFAux]
    simp only [h]
  refine ⟨step, ?_⟩
  intro maxN h
  cases maxN with
  | zero => rfl
  | succ n => exact step n [] [] h

/-- Witness for C5 with an oracle that always reports non-sat. -/
theorem solve_qff_non_sat_returns_accumulated_witness :
    ((solveQFFAux (fun _ => none) (fun _ _ => .openNode "x" 0)
        (fun nt => .extracted nt) [⟨"v", "<var>"⟩] [] [.atom 7] 3
        [[(SolKey.const ⟨"v", "<var>"⟩, DTree.inner "q" .nil 0)]]
        [[("v", "q")]]).1
      = [[(SolKey.const ⟨"v", "<var>"⟩, DTree.inner "q" .nil 0)]]) ∧
    ((solve_quantifier_free_formula 10 (fun _ => none)
        (fun _ _ => .openNode "x" 0) (fun nt => .extracted nt)
        [⟨"v", "<var>"⟩] [] [.atom 7]).1 = []) :=
  ⟨(solve_qff_non_sat_returns_accumulated (fun _ => none)
      (fun _ _ => .openNode "x" 0) (fun nt => .extracted nt)
      [⟨"v", "<var>"⟩] [] [.atom 7]).1 2 _ _ rfl,
   (solve_qff_non_sat_returns_accumulated (fun _ => none)
      (fun _ _ => .openNode "x" 0) (fun nt => .extracted nt)
      [⟨"v", "<var>"⟩] [] [.atom 7]).2 10 rfl⟩

theorem mem_mkInternalSolution (constants : List SMTConstant)
    (m : String → String) (cv : String × String)
    (h : cv ∈ mkInternalSolution constants m) : m cv.1 = cv.2 := by
  unfold mkInternalSolution at h
  rcases List.mem_map.1 h with ⟨c, _, rfl⟩
  rfl

/-- The joint negation of each previous solution is among the formulas
passed to the solver. -/
theorem negation_mem_buildFormulas (extractRegex : String → RegexCode)
    (constants : List SMTConstant)
    (tree_substitutions : List (SMTConstant × DTree))
    (internal_solutions : List (List (String × String)))
    (smt_atoms : List Z3Expr) (prev : List (String × String))
    (h : prev ∈ internal_solutions) :
    Z3Expr.orE (prev.map (fun cv => Z3Expr.notEq cv.1 cv.2)) ∈
      buildFormulas extractRegex constants tree_substitutions
        internal_solutions smt_atoms := by
  unfold buildFormulas
  exact List.mem_append.2 (Or.inl (List.mem_append.2 (Or.inr
    (List.mem_map.2 ⟨prev, h, rfl⟩))))

/-- **C6**.  `solve_quantifier_free_formula` queries the SMT solver at most
`max_number_smt_instantiations` times; between queries it adds, for each
previous solution, exactly one formula, namely a single disjunction of
inequalities over the entire assignment vector (not one negation per
variable); and — whenever the oracle only returns models of the formulas it
is given — the enumerated internal solution vectors are pairwise
distinct. -/
theorem solve_qff_bounded_distinct_enumeration
    (oracle : List Z3Expr → Option (String → String))
    (parse : String → String → DTree) (extractRegex : String → RegexCode)
    (constants : List SMTConstant)
    (tree_substitutions : List (SMTConstant × DTree))
    (smt_atoms : List Z3Expr)
    (atomSem : Nat → Bool) (reSem : String → RegexCode → Bool)
    (hsound : ∀ fs m, oracle fs = some m →
      ∀ e ∈ fs, evalZ3 atomSem reSem m e = true) :
    (∀ fuel solutions internal_solutions,
      (solveQFFAux oracle parse extractRegex constants tree_substitutions
          smt_atoms fuel solutions internal_solutions).2.2 ≤ fuel) ∧
    (∀ internal_solutions,
      buildFormulas extractRegex constants tree_substitutions
          internal_solutions smt_atoms
        = (constants.map (fun c => Z3Expr.inRe c.name
            (regexForConstant extractRegex tree_substitutions c)))
          ++ internal_solutions.map (fun prev =>
              Z3Expr.orE (prev.map (fun cv => Z3Expr.notEq cv.1 cv.2)))
          ++ smt_atoms) ∧
    (∀ fuel solutions internal_solutions,
      internal_solutions.Nodup →
      (solveQFFAux oracle parse extractRegex constants tree_substitutions
          smt_atoms fuel solutions internal_solutions).2.1.Nodup) := by
  refine ⟨?_, fun _ => rfl, ?_⟩
  · intro fuel
    induction fuel with
    | zero => intro solutions internal_solutions; rw [solveQFFAux]
    | succ n ih =>
        intro solutions internal_solutions
        rw [solveQFFAux]
        cases h : oracle (buildFormulas extractRegex constants
            tree_substitutions internal_solutions smt_atoms) with
        | none => simp
        | some m =>
            simp only []
            split
            · simp
            · simpa using Nat.succ_le_succ (ih _ _)
  · intro fuel
    induction fuel with
    | zero => intro solutions internal_solutions h; rw [solveQFFAux]; exact h
    | succ n ih =>
        intro solutions internal_solutions hnd
        rw [solveQFFAux]
        cases h : oracle (buildFormulas extractRegex constants
            tree_substitutions internal_solutions smt_atoms) with
        | none => exact hnd
        | some m =>
            simp only []
            split
            · exact hnd
            · refine ih _ _ ?_
              rw [List.nodup_append]
              refine ⟨hnd, List.nodup_singleton _, ?_⟩
              intro prev hprev hmem
              rw [List.mem_singleton] at hmem
              have he := hsound _ m h _
                (negation_mem_buildFormulas extractRegex constants
                  tree_substitutions internal_solutions smt_atoms prev hprev)
              rcases (evalZ3_orE atomSem reSem m _).1 he with ⟨d, hd, hdt⟩
              rcases List.mem_map.1 hd with ⟨cv, hcv, rfl⟩
              rw [hmem] at hcv
              have hm : m cv.1 = cv.2 := mem_mkInternalSolution constants m cv hcv
              rw [evalZ3] at hdt
              simp only [decide_eq_true_eq] at hdt
              exact hdt hm

/-- Witness for C6 with the always-non-sat oracle (which is trivially
sound). -/
theorem solve_qff_bounded_distinct_enumeration_witness :
    ((∀ fuel solutions internal_solutions,
      (solveQFFAux (fun _ => none) (fun _ _ => .openNode "x" 0)
          (fun nt => .extracted nt) [⟨"v", "<var>"⟩] [] [.atom 7]
          fuel solutions internal_solutions).2.2 ≤ fuel)) ∧
    (∀ internal_solutions,
      buildFormulas (fun nt => .extracted nt) [⟨"v", "<var>"⟩] []
          internal_solutions [.atom 7]
        = ([⟨"v", "<var>"⟩] : List SMTConstant).map (fun c => Z3Expr.inRe c.name
            (regexForConstant (fun nt => .extracted nt) [] c))
          ++ internal_solutions.map (fun prev =>
              Z3Expr.orE (prev.map (fun cv => Z3Expr.notEq cv.1 cv.2)))
          ++ [.atom 7]) ∧
    (∀ fuel solutions internal_solutions,
      internal_solutions.Nodup →
      (solveQFFAux (fun _ => none) (fun _ _ => .openNode "x" 0)
          (fun nt => .extracted nt) [⟨"v", "<var>"⟩] [] [.atom 7]
          fuel solutions internal_solutions).2.1.Nodup) :=
  solve_qff_bounded_distinct_enumeration (fun _ => none)
    (fun _ _ => .openNode "x" 0) (fun nt => .extracted nt)
    [⟨"v", "<var>"⟩] [] [.atom 7] (fun _ => true) (fun _ _ => true)
    (fun _ m h => by cases h)

/-! ## C7: the monotonicity correction of `compute_symbol_costs` -/

/-- `canonical(grammar)` (spec §4.C): each right-hand side split into a
list of symbols, in the grammar's key order. -/
abbrev CanonicalGrammar := List (String × List (List String))

def altsOf (g : CanonicalGrammar) (nt : String) : List (List String) :=
  match g.find? (fun p => p.1 = nt) with
  | some p => p.2
  | none => []

/-- A node of the external grammar graph (`grammar_graph.gg`): a
nonterminal node or one choice node per alternative.  (`ChoiceNode` is a
subclass of `NonterminalNode` there, so choice nodes are traversed by
`all_paths` and filtered from its results.) -/
inductive GNode where
  | nt (symbol : String)
  | choice (symbol : String) (alt : Nat)
deriving DecidableEq

/-- The children relation of the grammar graph: a nonterminal node has one
choice node per alternative; a choice node has the alternative's
nonterminal symbol nodes (terminal children are never `NonterminalNode`s
and are skipped by `all_paths`, so they are filtered here). -/
def gchildren (g : CanonicalGrammar) : GNode → List GNode
  | .nt s => (List.range (altsOf g s).length).map (fun i => GNode.choice s i)
  | .choice s i =>
      ((altsOf g s).getD i []).filterMap
        (fun sym => if is_nonterminal sym then some (GNode.nt sym) else none)

/-- The breadth-first search of `all_paths` inside
`ISLaSolver.compute_symbol_costs` (solver.py lines 1160-1184), with
`cycles_allowed = 1`: pop the front path; if it ends at the target record
it (and do not extend it); otherwise extend it by every child node whose
global visit counter has not exceeded `cycles_allowed + 1`, incrementing
the counter.  The extra fuel argument bounds the number of loop iterations
(the Python loop terminates because every node is appended at most
`cycles_allowed + 2` times). -/
def all_paths_aux (g : CanonicalGrammar) (target : GNode) :
    Nat → List (List GNode) → (GNode → Nat) → List (List GNode) →
    List (List GNode)
  | 0, _, _, result => result
  | _ + 1, [], _, result => result
  | fuel + 1, p :: queue, visited, result =>
      match p.getLast? with
      | none => all_paths_aux g target fuel queue visited result
      | some last =>
          if last = target then
            all_paths_aux g target fuel queue visited (result ++ [p])
          else
            let step := (gchildren g last).foldl
              (fun (acc : List (List GNode) × (GNode → Nat)) child =>
                if acc.2 child > 1 + 1 then acc
                else (acc.1 ++ [p ++ [child]],
                      fun x => if x = child then acc.2 child + 1 else acc.2 x))
              ([], visited)
            all_paths_aux g target fuel (queue ++ step.1) step.2 result

/-- `all_paths(self.graph.root, node)` with the final filtering of choice
nodes (solver.py line 1184). -/
def all_paths (g : CanonicalGrammar) (fuel : Nat) (target : String) :
    List (List String) :=
  (all_paths_aux g (.nt target) fuel [[GNode.nt "<start>"]] (fun _ => 0)
      []).map
    (fun p => p.filterMap (fun n => match n with
      | GNode.nt s => some s
      | GNode.choice _ _ => none))

/-- A Python dict assignment `result[source] = value` on the cost table. -/
def updateCost (c : String → Nat) (s : String) (v : Nat) : String → Nat :=
  fun x => if x = s then v else c x

/-- One correction step of `compute_symbol_costs` (solver.py lines
1200-1205): if the source's cost does not exceed the target's, raise it to
`target + 1`. -/
def fixEdge (c : String → Nat) (source target : String) : String → Nat :=
  if c source ≤ c target then updateCost c source (c target + 1) else c

/-- The inner loop `for idx in reversed(range(1, len(path)))` (solver.py
lines 1200-1205): edges are fixed from the last edge of the path to the
first. -/
def correctPath (c : String → Nat) : List String → String → Nat
  | [] => c
  | [_] => c
  | source :: target :: rest =>
      fixEdge (correctPath c (target :: rest)) source target

/-- `nonterminal_parents` (solver.py lines 1186-1191). -/
def nonterminal_parents (g : CanonicalGrammar) : List String :=
  g.filterMap (fun p =>
    if p.2.any (fun expansion => expansion.any is_nonterminal)
    then some p.1 else none)

/-- The correction phase of `ISLaSolver.compute_symbol_costs` (solver.py
lines 1193-1207) applied to the initial cost table `init` (the table
computed from the external `GrammarFuzzer` min-cost expansions, lines
1149-1158). -/
def correct_symbol_costs (g : CanonicalGrammar) (fuel : Nat)
    (init : String → Nat) : String → Nat :=
  (nonterminal_parents g).foldl
    (fun c parent => (all_paths g fuel parent).foldl correctPath c)
    init

/-- One grammar step from nonterminal `a` to nonterminal `b`. -/
def ntEdge (g : CanonicalGrammar) (a b : String) : Bool :=
  (altsOf g a).any (fun expansion =>
    expansion.any (fun sym => is_nonterminal sym && sym = b))

/-- A cycle-free path from the grammar root along grammar-graph edges. -/
def isCycleFreeRootPath (g : CanonicalGrammar) (p : List String) : Bool :=
  match p with
  | [] => false
  | h :: _ =>
      h = "<start>" && ((p.zip p.tail).all (fun e => ntEdge g e.1 e.2))
        && decide p.Nodup

/-- The grammar `<start> ::= <A> | <B>; <A> ::= <B> | "a"; <B> ::= <A> |
"b"`, canonicalized. -/
def exGrammar : CanonicalGrammar :=
  [("<start>", [["<A>"], ["<B>"]]),
   ("<A>", [["<B>"], ["a"]]),
   ("<B>", [["<A>"], ["b"]])]

/-- Modelled from the spec (§4.C): the initial symbol-cost table produced
for `exGrammar` by the external `GrammarFuzzer`-based computation (solver.py
lines 1149-1158): the min-cost expansion from `<start>` passes through
`<start>` (two nonterminal-introducing alternatives) and one of `<A>`/`<B>`
(one such alternative each), giving cost 3; from `<A>` (resp. `<B>`) it
passes through `<A>` and `<B>` (one each), giving cost 2.  The
counterexample below does not depend on these particular values: for this
grammar both `[<start>, <A>, <B>]` and `[<start>, <B>, <A>]` are cycle-free
root paths, so the claimed property would require both `cost(<A>) >
cost(<B>)` and `cost(<B>) > cost(<A>)` and is unsatisfiable outright. -/
def exInitialCosts : String → Nat :=
  fun s => if s = "<start>" then 3 else if s = "<A>" then 2
    else if s = "<B>" then 2 else 0

/-- The corrected symbol costs for the example grammar (fuel 100 is far
more than the BFS of `all_paths` needs on this graph). -/
def exSymbolCosts : String → Nat :=
  correct_symbol_costs exGrammar 100 exInitialCosts

/-- **C7, counterexample**.  After the correction loop of
`compute_symbol_costs`, the costs are `<start> ↦ 5, <A> ↦ 4, <B> ↦ 3`;
the path `[<start>, <B>, <A>]` is a cycle-free root-to-`<A>` path, yet
`cost(<B>) = 3 < cost(<A>) + 1 = 5`: the corrections made while processing
the paths to the later parent `<B>` raise `<A>`'s cost above `<B>`'s and
break the monotonicity established earlier for this path. -/
theorem compute_symbol_costs_not_monotone :
    isCycleFreeRootPath exGrammar ["<start>", "<B>", "<A>"] = true ∧
    exSymbolCosts "<start>" = 5 ∧ exSymbolCosts "<A>" = 4 ∧
    exSymbolCosts "<B>" = 3 ∧
    ¬ (exSymbolCosts "<A>" + 1 ≤ exSymbolCosts "<B>") := by
  refine ⟨by decide, by decide, by decide, by decide, by decide⟩

theorem fixEdge_apply_ne (c : String → Nat) (source target x : String)
    (hx : x ≠ source) : fixEdge c source target x = c x := by
  unfold fixEdge updateCost
  split
  · simp [hx]
  · rfl

/-- **C7, amended**.  Immediately after the correction loop of
`compute_symbol_costs` processes one duplicate-free path, the costs are
strictly monotonically decreasing along that path (each parent's cost is at
least the child's cost plus one); the counterexample above shows that this
property need not hold for all cycle-free root paths once the whole
function returns, because corrections for later paths can raise a node's
cost above its parent's on an earlier path. -/
theorem correctPath_strictly_decreasing (c : String → Nat) :
    ∀ (p : List String), p.Nodup →
    ∀ source target, (source, target) ∈ p.zip p.tail →
      correctPath c p target + 1 ≤ correctPath c p source := by
  intro p
  induction p with
  | nil => intro _ s t hst; simp at hst
  | cons a q ih =>
      cases q with
      | nil => intro _ s t hst; simp at hst
      | cons b rest =>
          intro h s t hst
          have hna : a ∉ b :: rest := (List.nodup_cons.1 h).1
          have hq : (b :: rest).Nodup := (List.nodup_cons.1 h).2
          have hst' : (s, t) ∈ ((a, b) :: (b :: rest).zip rest) := hst
          rcases List.mem_cons.1 hst' with heq | hmem
          · injection heq with hs ht
            rw [hs, ht]
            have hba : b ≠ a := by
              intro hba
              exact hna (by rw [← hba]; exact List.mem_cons_self _ _)
            show fixEdge (correctPath c (b :: rest)) a b b + 1
              ≤ fixEdge (correctPath c (b :: rest)) a b a
            rw [fixEdge_apply_ne _ _ _ _ hba]
            unfold fixEdge
            split
            · next hle => simp [updateCost]
            · next hgt => omega
          · have hs := (List.of_mem_zip hmem).1
            have ht := (List.of_mem_zip hmem).2
            have hsa : s ≠ a := by
              intro hsa
              exact hna (hsa ▸ hs)
            have hta : t ≠ a := by
              intro hta
              exact hna (hta ▸ List.mem_cons_of_mem _ ht)
            show fixEdge (correctPath c (b :: rest)) a b t + 1
              ≤ fixEdge (correctPath c (b :: rest)) a b s
            rw [fixEdge_apply_ne _ _ _ _ hsa, fixEdge_apply_ne _ _ _ _ hta]
            exact ih hq s t hmem

/-- Witness for the amended C7 on a concrete two-node path. -/
theorem correctPath_strictly_decreasing_witness :
    correctPath (fun _ => 0) ["<x>", "<y>"] "<y>" + 1
      ≤ correctPath (fun _ => 0) ["<x>", "<y>"] "<x>" :=
  correctPath_strictly_decreasing (fun _ => 0) ["<x>", "<y>"] (by decide)
    "<x>" "<y>" (by decide)

end Isla
